import Mathlib

/-!
Shallow embedding of the `LevelMeter` metering pipeline from
`juce-extensions` (files `audio/metering/LevelMeter.h` and
`components/metering/LevelMeterComponent.cpp`).

Doubles are modelled as exact rationals (`ℚ`), timestamps in milliseconds as
naturals.  Definitions whose C++ bodies appear in the sources in `src/` are
translated from those bodies; parts of the repository whose implementation
files are not present (`LevelMeter.cpp`, `LevelPeakValue.h`) are modelled from
the specification, and each such definition says so in its doc comment.
-/

namespace LevelMeterSpec

/-- `LevelMeter::kRefreshRateHz` (LevelMeter.h line 19). -/
def kRefreshRateHz : ℕ := 30

/-- `LevelMeter::kPeakHoldValueTimeMs` (LevelMeter.h line 22). -/
def kPeakHoldValueTimeMs : ℕ := 2000

/-- `LevelMeter::kOverloadTriggerLevel` (LevelMeter.h line 25): 1.0 linear. -/
def kOverloadTriggerLevel : ℚ := 1

/-- `LevelMeter::Measurement` (LevelMeter.h lines 30-34): a unit of
measurement for a specific channel.  `channelIndex` is a non-negative int
(spec §3), `peakLevel` a linear amplitude. -/
structure Measurement where
  channelIndex : ℕ
  peakLevel : ℚ
  deriving DecidableEq, Repr

/-! ## LevelPeakValue (the PeakHoldValue decay/hold state machine)

`LevelPeakValue.h` is not among the sources, so this component is modelled
from the specification (§3, §4.5). -/

/-- Modelled from the spec: `LevelPeakValue<double>` (header `LevelPeakValue.h`
is missing from the sources).  Spec §3: `{ currentValue, lastRiseTimestamp,
holdDurationMs }` plus a configured floor.  The spec leaves the exact decay
curve open (§9 "Open question"); this model fixes a linear decline of
`decayPerMs` value units per millisecond once the hold window has expired,
which satisfies the monotone-decline requirement of §4.5. -/
structure LevelPeakValue where
  currentValue : ℚ
  lastRiseTime : ℕ
  holdDurationMs : ℕ
  floorValue : ℚ
  decayPerMs : ℚ
  deriving DecidableEq, Repr

namespace LevelPeakValue

/-- Modelled from the spec (§4.5 transition rule): any incoming sample ≥
current value forces *rising* (value = sample, timer reset) regardless of
current state; a sample < current value never raises the value and never
resets the timer. -/
def updateWithNewValue (s : LevelPeakValue) (v : ℚ) (now : ℕ) : LevelPeakValue :=
  if s.currentValue ≤ v then
    { s with currentValue := v, lastRiseTime := now }
  else
    s

/-- Modelled from the spec (§4.5 states): *holding* while elapsed time since
the last rise is `< holdDurationMs` (value frozen at `currentValue`);
*decaying* thereafter, declining monotonically toward the floor and never
below it. -/
def getValue (s : LevelPeakValue) (now : ℕ) : ℚ :=
  if now < s.lastRiseTime + s.holdDurationMs then
    s.currentValue
  else
    max s.floorValue (s.currentValue - s.decayPerMs * ((now : ℚ) - (s.lastRiseTime + s.holdDurationMs : ℕ)))

/-- Modelled from the spec: a freshly reset peak value at silence (floor 0
linear), with the given hold duration and decay rate. -/
def silent (holdMs : ℕ) (decay : ℚ) : LevelPeakValue :=
  { currentValue := 0, lastRiseTime := 0, holdDurationMs := holdMs
    floorValue := 0, decayPerMs := decay }

end LevelPeakValue

/-! ## Subscriber (the Viewer role)

`LevelMeter::Subscriber` is declared in `LevelMeter.h` (lines 99-199); its
member bodies live in the missing `LevelMeter.cpp`, so they are modelled from
the specification (§4.7, §7). -/

/-- `LevelMeter::Subscriber::ChannelData` (LevelMeter.h lines 105-110):
per-channel `{ peakLevel, peakHoldLevel, overloaded }`. -/
structure ChannelData where
  peakLevel : LevelPeakValue
  peakHoldLevel : LevelPeakValue
  overloaded : Bool
  deriving DecidableEq, Repr

/-- Modelled from the spec: a default-constructed `ChannelData` at silence
(spec §4.7 "each reset to silence"): a fast peak with zero hold and the held
peak with the default 2000 ms hold (`kPeakHoldValueTimeMs`), overload latch
clear.  The decay rate is the model's calibration constant (spec §9 leaves
the decline law open). -/
def ChannelData.silent : ChannelData :=
  { peakLevel := LevelPeakValue.silent 0 (1 / 100)
    peakHoldLevel := LevelPeakValue.silent kPeakHoldValueTimeMs (1 / 100)
    overloaded := false }

/-- The observable state of a `LevelMeter::Subscriber` (LevelMeter.h line
198: `juce::Array<ChannelData> mChannelData`). -/
structure Subscriber where
  channelData : List ChannelData
  deriving DecidableEq, Repr

namespace Subscriber

/-- Replace the channel at `i` by `f` applied to it; out of range leaves the
list unchanged (the shape of a bounds-checked `juce::Array` write). -/
def updateChannel (f : ChannelData → ChannelData) : List ChannelData → ℕ → List ChannelData
  | [], _ => []
  | c :: cs, 0 => f c :: cs
  | c :: cs, n + 1 => c :: updateChannel f cs n

/-- Modelled from the spec: a subscriber on which `prepareToPlay` has never
been called holds no channels (the default-constructed `juce::Array` of
LevelMeter.h line 198 is empty). -/
def unprepared : Subscriber := { channelData := [] }

/-- Modelled from the spec (§4.7): `prepareToPlay(n)` (re)allocates `n`
`ChannelData` entries, each reset to silence. -/
def prepareToPlay (_s : Subscriber) (numChannels : ℕ) : Subscriber :=
  { channelData := List.replicate numChannels ChannelData.silent }

/-- Modelled from the spec (§4.7): `updateWithMeasurement(m)` routes to
`channelData[m.channelIndex]`, feeds `m.peakLevel` into both the fast and the
held `PeakHoldValue`, and latches `overloaded` when
`m.peakLevel ≥ kOverloadTriggerLevel` (1.0). -/
def updateWithMeasurement (s : Subscriber) (m : Measurement) (now : ℕ) : Subscriber :=
  { channelData :=
      updateChannel
        (fun c =>
          { peakLevel := c.peakLevel.updateWithNewValue m.peakLevel now
            peakHoldLevel := c.peakHoldLevel.updateWithNewValue m.peakLevel now
            overloaded := if kOverloadTriggerLevel ≤ m.peakLevel then true else c.overloaded })
        s.channelData m.channelIndex }

/-- Modelled from the spec: `getNumChannels()` returns the number of
configured channels (LevelMeter.h line 193). -/
def getNumChannels (s : Subscriber) : ℕ := s.channelData.length

/-- Modelled from the spec: `getOverloaded(channelIndex)` (LevelMeter.h line
178) reads the per-channel latch; an unconfigured channel reads the
default-constructed (false) flag (§7 empty-state read). -/
def getOverloaded (s : Subscriber) (channelIndex : ℕ) : Bool :=
  (s.channelData[channelIndex]?.getD ChannelData.silent).overloaded

/-- Modelled from the spec: `getPeakValue(channelIndex)` (LevelMeter.h line
165) evaluates the fast peak at the current time; an unconfigured channel
reads silence (§7 empty-state read). -/
def getPeakValue (s : Subscriber) (channelIndex : ℕ) (now : ℕ) : ℚ :=
  ((s.channelData[channelIndex]?.getD ChannelData.silent).peakLevel).getValue now

/-- Modelled from the spec: `getPeakHoldValue(channelIndex)` (LevelMeter.h
line 172) evaluates the held peak at the current time; an unconfigured
channel reads silence (§7 empty-state read). -/
def getPeakHoldValue (s : Subscriber) (channelIndex : ℕ) (now : ℕ) : ℚ :=
  ((s.channelData[channelIndex]?.getD ChannelData.silent).peakHoldLevel).getValue now

/-- Modelled from the spec (§4.7): `resetOverloaded()` clears the latch for
all channels without touching levels (LevelMeter.h line 183). -/
def resetOverloaded (s : Subscriber) : Subscriber :=
  { channelData := s.channelData.map (fun c => { c with overloaded := false }) }

/-- Deliver a sequence of timestamped measurements in order. -/
def applyMeasurements (s : Subscriber) (ms : List (Measurement × ℕ)) : Subscriber :=
  ms.foldl (fun acc p => acc.updateWithMeasurement p.1 p.2) s

end Subscriber

/-! ## MeasurementQueue

`moodycamel::ReaderWriterQueue<Measurement> mMeasurements { 100 }`
(LevelMeter.h line 281) together with `pushMeasurement` (declared line 293,
body in the missing `LevelMeter.cpp`): modelled from the spec (§4.1). -/

/-- Modelled from the spec (§4.1): a fixed-capacity FIFO of `Measurement`
records (the single-producer/single-consumer ring buffer, observed
functionally). -/
structure MeasurementQueue where
  capacity : ℕ
  items : List Measurement
  deriving DecidableEq, Repr

namespace MeasurementQueue

/-- An empty queue with the default capacity 100 (LevelMeter.h line 281). -/
def empty (cap : ℕ := 100) : MeasurementQueue := { capacity := cap, items := [] }

/-- Modelled from the spec (§4.1, §7): `push` appends when there is room and
otherwise **drops** the new measurement, reporting failure only through the
returned boolean.  The queue contents are untouched on failure. -/
def push (q : MeasurementQueue) (m : Measurement) : MeasurementQueue × Bool :=
  if q.items.length < q.capacity then
    ({ q with items := q.items ++ [m] }, true)
  else
    (q, false)

/-- Modelled from the spec (§4.1): non-blocking `tryPop`; returns `none` when
nothing is queued. -/
def tryPop (q : MeasurementQueue) : Option Measurement × MeasurementQueue :=
  match q.items with
  | [] => (none, q)
  | m :: rest => (some m, { q with items := rest })

/-- Push a whole sequence, collecting the measurements the queue accepted. -/
def pushAll (q : MeasurementQueue) : List Measurement → MeasurementQueue × List Measurement
  | [] => (q, [])
  | m :: rest =>
    let pr := q.push m
    let tail := pr.1.pushAll rest
    (tail.1, if pr.2 then m :: tail.2 else tail.2)

/-- Modelled from the spec (§4.4): the consumer drains by repeated `tryPop`
until empty; the loop is bounded by the snapshot of currently enqueued
measurements (`fuel`). -/
def drainLoop : ℕ → MeasurementQueue → List Measurement
  | 0, _ => []
  | fuel + 1, q =>
    match q.tryPop with
    | (none, _) => []
    | (some m, q') => m :: drainLoop fuel q'

/-- A full drain: pop with fuel equal to the snapshot size. -/
def drain (q : MeasurementQueue) : List Measurement :=
  drainLoop q.items.length q

end MeasurementQueue

/-! ## SharedTimer

`LevelMeter::SharedTimer` is defined inline in LevelMeter.h (lines 234-269):
`subscribe` starts the timer at `kRefreshRateHz` when the first subscriber
arrives, and `timerCallback` stops the timer once the subscriber count is
zero.  Unsubscription happens through the destruction of an
`rdk::Subscription` token (an external capability, spec §5/§9), observed here
as a decrement of the subscriber count. -/

/-- The observable state of the process-wide `SharedTimer`: whether the
`juce::Timer` is running, the rate passed to `startTimerHz`, and
`mSubscribers.getNumSubscribers()`. -/
structure SharedTimer where
  running : Bool
  timerHz : ℕ
  numSubscribers : ℕ
  deriving DecidableEq, Repr

namespace SharedTimer

/-- A freshly constructed `SharedTimer`: timer not running, no subscribers. -/
def initial : SharedTimer := { running := false, timerHz := 0, numSubscribers := 0 }

/-- `SharedTimer::subscribe` (LevelMeter.h lines 247-254): sets the timer
going at `kRefreshRateHz` if we are about to subscribe the first subscriber,
then registers the level meter. -/
def subscribe (t : SharedTimer) : SharedTimer :=
  let t' := if t.numSubscribers = 0 then { t with running := true, timerHz := kRefreshRateHz } else t
  { t' with numSubscribers := t'.numSubscribers + 1 }

/-- Release of an `rdk::Subscription` token: the level meter disappears from
`mSubscribers` (external registry capability, spec §5). -/
def unsubscribe (t : SharedTimer) : SharedTimer :=
  { t with numSubscribers := t.numSubscribers - 1 }

/-- `SharedTimer::timerCallback` (LevelMeter.h lines 259-268): stops the
timer if there are no subscribers (the fan-out to `LevelMeter::timerCallback`
is then vacuous). -/
def timerCallback (t : SharedTimer) : SharedTimer :=
  if t.numSubscribers = 0 then { t with running := false } else t

/-- The events the timer state reacts to.  A `tick` only happens while the
`juce::Timer` is running. -/
inductive Event
  | subscribe
  | unsubscribe
  | tick
  deriving DecidableEq, Repr

/-- One step of the timer lifecycle. -/
def step (t : SharedTimer) : Event → SharedTimer
  | .subscribe => t.subscribe
  | .unsubscribe => t.unsubscribe
  | .tick => if t.running then t.timerCallback else t

/-- Run a sequence of lifecycle events from a given state. -/
def run (t : SharedTimer) (es : List Event) : SharedTimer :=
  es.foldl step t

end SharedTimer

/-! ## Meter consumer side (the drain step)

`LevelMeter::timerCallback` is declared at LevelMeter.h line 298; its body is
in the missing `LevelMeter.cpp`, so the drain step is modelled from the
specification (§4.4). -/

/-- An observable call made by the drain step into a subscriber, identified
by its position in the subscriber list. -/
inductive MeterEvent
  | update (subscriberIdx : ℕ) (m : Measurement)
  | finished (subscriberIdx : ℕ)
  deriving DecidableEq, Repr

/-- Result of one drain step: the new subscriber states, the emptied queue,
and the trace of calls made into subscribers. -/
structure MeterTickResult where
  subscribers : List Subscriber
  queue : MeasurementQueue
  events : List MeterEvent
  deriving Repr

/-- Modelled from the spec (§4.4): on each clock tick the meter drains its
queue completely and, for each dequeued `Measurement`, invokes every
currently subscribed viewer's `updateWithMeasurement`; after the drain
completes it invokes every subscribed viewer's `measurementUpdatesFinished`
exactly once, regardless of how many (including zero) measurements were
delivered. -/
def meterTick (q : MeasurementQueue) (subs : List Subscriber) (now : ℕ) : MeterTickResult :=
  let msgs := q.drain
  { subscribers := subs.map (fun s => msgs.foldl (fun a m => a.updateWithMeasurement m now) s)
    queue := { q with items := [] }
    events :=
      (msgs.flatMap fun m => (List.range subs.length).map (fun i => MeterEvent.update i m))
        ++ (List.range subs.length).map MeterEvent.finished }

/-! ## Scale

`LevelMeter::Scale` is declared in LevelMeter.h (lines 39-94); the method
bodies are in the missing `LevelMeter.cpp`, so the mapping is modelled from
the specification (§4.6 and the §8 scenario, which pin the segment boundaries
to the divisions themselves: division `i` of `N` divisions maps to proportion
`i/(N-1)`, and the floor-to-first-division segment collapses to proportion
`0`). -/

/-- `LevelMeter::Scale` data (LevelMeter.h lines 88-93): a configurable minus
infinity and the ascending division levels in decibels. -/
structure Scale where
  minusInfinityDb : ℚ
  divisions : List ℚ
  deriving DecidableEq, Repr

namespace Scale

/-- `Scale::kDefaultMinusInfinityDb` (LevelMeter.h line 43). -/
def kDefaultMinusInfinityDb : ℚ := -96

/-- Piecewise-linear position of `x` along the knots `(dᵢ, i)`: on the
segment `[dᵢ, dᵢ₊₁]` it returns `i + (x - dᵢ)/(dᵢ₊₁ - dᵢ)`. -/
def interpUp : List ℚ → ℚ → ℚ
  | [], _ => 0
  | [_], _ => 0
  | a :: b :: rest, x =>
    if x ≤ b then (x - a) / (b - a)
    else 1 + interpUp (b :: rest) x

/-- Inverse piecewise-linear map along the knots `(i, dᵢ)`: for a position
`u ∈ [i, i+1]` it returns `dᵢ + (u - i)·(dᵢ₊₁ - dᵢ)`. -/
def interpDown : List ℚ → ℚ → ℚ
  | [], _ => 0
  | [a], _ => a
  | a :: b :: rest, u =>
    if u ≤ 1 then a + u * (b - a)
    else interpDown (b :: rest) (u - 1)

/-- Modelled from the spec (§4.6): `calculateProportionForLevelDb` clamps the
level to `[minusInfinityDb, divisions.last]`, maps the floor-to-first-division
segment to proportion `0`, and otherwise interpolates linearly within the
bracketing pair of consecutive divisions, division `i` sitting at proportion
`i/(N-1)` (the §8 scenario: `-20 dB ↦ 0.5` on a five-division scale). -/
def calculateProportionForLevelDb (s : Scale) (levelDb : ℚ) : ℚ :=
  match s.divisions with
  | [] => 0
  | d0 :: _ =>
    let xc := min (max levelDb s.minusInfinityDb) (s.divisions.getLastD 0)
    if xc ≤ d0 then 0
    else interpUp s.divisions xc / ((s.divisions.length : ℚ) - 1)

/-- Modelled from the spec (§4.6): `calculateLevelDbForProportion` is the
inverse mapping — the proportion is clamped to `[0, 1]`, scaled back to a
segment position and interpolated along the divisions. -/
def calculateLevelDbForProportion (s : Scale) (proportion : ℚ) : ℚ :=
  let pc := min (max proportion 0) 1
  interpDown s.divisions (pc * ((s.divisions.length : ℚ) - 1))

end Scale

/-! ## LevelMeterComponent

`LevelMeterComponent.cpp` is in the sources; the repaint decision (lines
29-48) and the overload region of `paint` (lines 96-99 and 117-121) are
translated from it. -/

/-- `LevelMeterComponent::measurementUpdatesFinished` (LevelMeterComponent.cpp
lines 33-42): the frame is silent when no channel has
`calculateProportionForLevel (max (getPeakValue ch) (getPeakHoldValue ch))`
above `0.001`.  `prop` stands for `getScale().calculateProportionForLevel`
(whose body is in the missing `LevelMeter.cpp`); `channels` lists each
channel's `(getPeakValue ch, getPeakHoldValue ch)` pair. -/
def isSilentFrame (prop : ℚ → ℚ) (channels : List (ℚ × ℚ)) : Bool :=
  channels.all (fun c => !(decide ((1 : ℚ)/1000 < prop (max c.1 c.2))))

/-- Outcome of one `measurementUpdatesFinished` call: whether `repaint()` was
requested and the new value of `mWasSilent`. -/
structure UpdatesFinishedResult where
  repaintRequested : Bool
  wasSilent : Bool
  deriving DecidableEq, Repr

/-- `LevelMeterComponent::measurementUpdatesFinished` (LevelMeterComponent.cpp
lines 29-48): computes the current frame's silence, requests a repaint unless
both the current frame and the previous frame (`mWasSilent`) are silent, and
stores the current silence in `mWasSilent`. -/
def measurementUpdatesFinished (prop : ℚ → ℚ) (channels : List (ℚ × ℚ))
    (mWasSilent : Bool) : UpdatesFinishedResult :=
  let isSilent := isSilentFrame prop channels
  { repaintRequested := !isSilent || !mWasSilent
    wasSilent := isSilent }

/-- `LevelMeterComponent::paint` (LevelMeterComponent.cpp lines 96-99 and
117-121): the red overload region for a channel is filled exactly when
`peakHold >= kOverloadTriggerLevel`, where `peakHold = getPeakHoldValue (ch)`
(line 83).  The channel's sticky `overloaded` latch is passed in to record
that `paint` could have consulted it; as in the C++, the decision reads only
the held peak. -/
def paintDrawsOverloadRegion (peakHold : ℚ) (_overloaded : Bool) : Bool :=
  decide (kOverloadTriggerLevel ≤ peakHold)

/-! ## Theorems -/

/-- C7: for the scale `Scale(-96.0, {-60, -40, -20, -10, 0})`,
`calculateProportionForLevelDb(-20.0)` returns exactly `0.5`: `-20` is the
third of the five divisions and the division boundaries sit at the evenly
spaced proportions `i/(N-1)`, so it lands on `2/4`. -/
theorem proportion_of_minus20_is_half :
    Scale.calculateProportionForLevelDb
      { minusInfinityDb := -96, divisions := [-60, -40, -20, -10, 0] } (-20) = 1 / 2 := by
  norm_num [Scale.calculateProportionForLevelDb, Scale.interpUp, List.getLastD]

/-- C9: `LevelMeterComponent::measurementUpdatesFinished` requests a repaint
on every invocation except when both the previous frame (`mWasSilent`) and
the current frame are silent, and a frame is silent exactly when every
channel's scale proportion of `max (getPeakValue ch) (getPeakHoldValue ch)`
is at most `0.001`; the silence of the current frame is stored as the next
invocation's previous-frame flag. -/
theorem repaint_unless_both_frames_silent (prop : ℚ → ℚ) (channels : List (ℚ × ℚ))
    (mWasSilent : Bool) :
    ((measurementUpdatesFinished prop channels mWasSilent).repaintRequested = false
      ↔ (isSilentFrame prop channels = true ∧ mWasSilent = true))
    ∧ (isSilentFrame prop channels = true ↔ ∀ c ∈ channels, prop (max c.1 c.2) ≤ 1 / 1000)
    ∧ (measurementUpdatesFinished prop channels mWasSilent).wasSilent
        = isSilentFrame prop channels := by
  refine ⟨?_, ?_, rfl⟩
  · cases mWasSilent <;> simp [measurementUpdatesFinished]
  · simp [isSilentFrame, not_lt]

/-- Witness for C9: with the identity proportion map, one channel at peaks
`(1, 2)` and a non-silent previous frame, the call requests a repaint (the
current frame is not silent). -/
theorem repaint_unless_both_frames_silent_witness :
    ((measurementUpdatesFinished (fun q => q) [((1 : ℚ), (2 : ℚ))] false).repaintRequested = false
      ↔ (isSilentFrame (fun q => q) [((1 : ℚ), (2 : ℚ))] = true ∧ false = true))
    ∧ (isSilentFrame (fun q => q) [((1 : ℚ), (2 : ℚ))] = true
        ↔ ∀ c ∈ [((1 : ℚ), (2 : ℚ))], (fun q => q) (max c.1 c.2) ≤ 1 / 1000)
    ∧ (measurementUpdatesFinished (fun q => q) [((1 : ℚ), (2 : ℚ))] false).wasSilent
        = isSilentFrame (fun q => q) [((1 : ℚ), (2 : ℚ))] :=
  repaint_unless_both_frames_silent (fun q => q) [((1 : ℚ), (2 : ℚ))] false

/-- C10: in `LevelMeterComponent::paint` the red overload region for a
channel is drawn exactly when the channel's current peak-hold value reaches
`kOverloadTriggerLevel` (1.0); the decision ignores the sticky `overloaded`
latch entirely, so even while the latch is still set (never reset), once the
held peak has decayed below 1.0 the red indication disappears. -/
theorem paint_overload_region_from_peak_hold (s : Subscriber) (ch now : ℕ) (o o' : Bool) :
    (paintDrawsOverloadRegion (s.getPeakHoldValue ch now) o = true
      ↔ kOverloadTriggerLevel ≤ s.getPeakHoldValue ch now)
    ∧ paintDrawsOverloadRegion (s.getPeakHoldValue ch now) o
        = paintDrawsOverloadRegion (s.getPeakHoldValue ch now) o'
    ∧ (s.getOverloaded ch = true → s.getPeakHoldValue ch now < kOverloadTriggerLevel →
        paintDrawsOverloadRegion (s.getPeakHoldValue ch now) o = false) := by
  refine ⟨by simp [paintDrawsOverloadRegion], rfl, ?_⟩
  intro _ hlt
  simp [paintDrawsOverloadRegion, not_le.2 hlt]

/-- Witness for C10: a subscriber whose channel 0 latched an overload from a
1.5 measurement at time 0; at time 2100 the held peak has decayed to 0.5, the
latch still reads overloaded, and paint no longer draws the red region. -/
theorem paint_overload_region_from_peak_hold_witness :
    (((Subscriber.unprepared.prepareToPlay 1).updateWithMeasurement ⟨0, 3 / 2⟩ 0).getOverloaded 0
        = true)
    ∧ (((Subscriber.unprepared.prepareToPlay 1).updateWithMeasurement ⟨0, 3 / 2⟩ 0).getPeakHoldValue
        0 2100 < kOverloadTriggerLevel)
    ∧ paintDrawsOverloadRegion
        (((Subscriber.unprepared.prepareToPlay 1).updateWithMeasurement ⟨0, 3 / 2⟩ 0).getPeakHoldValue
          0 2100) true = false := by
  have h1 : ((Subscriber.unprepared.prepareToPlay 1).updateWithMeasurement
      ⟨0, 3 / 2⟩ 0).getOverloaded 0 = true := by
    simp [Subscriber.unprepared, Subscriber.prepareToPlay, Subscriber.updateWithMeasurement,
      Subscriber.updateChannel, Subscriber.getOverloaded, ChannelData.silent,
      kOverloadTriggerLevel]
    norm_num
  have h2 : ((Subscriber.unprepared.prepareToPlay 1).updateWithMeasurement
      ⟨0, 3 / 2⟩ 0).getPeakHoldValue 0 2100 < kOverloadTriggerLevel := by
    simp [Subscriber.unprepared, Subscriber.prepareToPlay, Subscriber.updateWithMeasurement,
      Subscriber.updateChannel, Subscriber.getPeakHoldValue, ChannelData.silent,
      LevelPeakValue.silent, LevelPeakValue.updateWithNewValue, LevelPeakValue.getValue,
      kOverloadTriggerLevel, kPeakHoldValueTimeMs]
    norm_num
  exact ⟨h1, h2,
    (paint_overload_region_from_peak_hold
      ((Subscriber.unprepared.prepareToPlay 1).updateWithMeasurement ⟨0, 3 / 2⟩ 0)
      0 2100 true true).2.2 h1 h2⟩

/-- C8: querying a `Subscriber` on which `prepareToPlay` has never been
called is a defined empty-state read: `getNumChannels` is `0`,
`getPeakValue`/`getPeakHoldValue` read silence (0), `getOverloaded` reads
`false`, and feeding it a measurement leaves its state unchanged. -/
theorem unprepared_subscriber_empty_state :
    Subscriber.unprepared.getNumChannels = 0
    ∧ (∀ ch now : ℕ, Subscriber.unprepared.getPeakValue ch now = 0)
    ∧ (∀ ch now : ℕ, Subscriber.unprepared.getPeakHoldValue ch now = 0)
    ∧ (∀ ch : ℕ, Subscriber.unprepared.getOverloaded ch = false)
    ∧ ∀ (m : Measurement) (now : ℕ),
        Subscriber.unprepared.updateWithMeasurement m now = Subscriber.unprepared := by
  refine ⟨rfl, ?_, ?_, ?_, ?_⟩
  · intro ch now
    simp [Subscriber.unprepared, Subscriber.getPeakValue, ChannelData.silent,
      LevelPeakValue.silent, LevelPeakValue.getValue]
  · intro ch now
    simp [Subscriber.unprepared, Subscriber.getPeakHoldValue, ChannelData.silent,
      LevelPeakValue.silent, LevelPeakValue.getValue]
  · intro ch
    simp [Subscriber.unprepared, Subscriber.getOverloaded, ChannelData.silent]
  · intro m now
    simp [Subscriber.unprepared, Subscriber.updateWithMeasurement, Subscriber.updateChannel]

/-- One lifecycle step keeps the invariant "while at least one subscriber
exists the timer is running". -/
lemma sharedTimer_step_inv (t : SharedTimer) (e : SharedTimer.Event)
    (h : 0 < t.numSubscribers → t.running = true) :
    0 < (t.step e).numSubscribers → (t.step e).running = true := by
  cases e with
  | subscribe =>
    by_cases h0 : t.numSubscribers = 0
    · simp [SharedTimer.step, SharedTimer.subscribe, h0]
    · have hrun := h (Nat.pos_of_ne_zero h0)
      simp [SharedTimer.step, SharedTimer.subscribe, h0, hrun]
  | unsubscribe =>
    intro hpos
    simp only [SharedTimer.step, SharedTimer.unsubscribe] at hpos ⊢
    exact h (lt_of_lt_of_le hpos (Nat.sub_le _ _))
  | tick =>
    by_cases hr : t.running = true
    · by_cases h0 : t.numSubscribers = 0
      · simp [SharedTimer.step, SharedTimer.timerCallback, hr, h0]
      · simp [SharedTimer.step, SharedTimer.timerCallback, hr, h0]
    · have hrf : t.running = false := by simpa using hr
      simp [SharedTimer.step, hrf]
      by_contra hne
      exact hr (h (Nat.pos_of_ne_zero hne))

/-- The invariant holds along any event sequence from a state satisfying
it. -/
lemma sharedTimer_run_inv (es : List SharedTimer.Event) (t : SharedTimer)
    (h : 0 < t.numSubscribers → t.running = true) :
    0 < (t.run es).numSubscribers → (t.run es).running = true := by
  induction es generalizing t with
  | nil => exact h
  | cons e es ih => exact ih _ (sharedTimer_step_inv t e h)

/-- C6: the shared timer is started at `kRefreshRateHz` (30 Hz) when the
first level meter subscribes; a tick with zero subscribers stops it; and the
cycle may repeat arbitrarily: along any sequence of subscribe/unsubscribe/
tick events from the initial state, the timer is running whenever at least
one subscriber exists. -/
theorem shared_timer_lifecycle (t : SharedTimer) (es : List SharedTimer.Event)
    (h0 : t.numSubscribers = 0) :
    (t.subscribe.running = true ∧ t.subscribe.timerHz = kRefreshRateHz)
    ∧ (t.step SharedTimer.Event.tick).running = false
    ∧ (0 < (SharedTimer.initial.run es).numSubscribers →
        (SharedTimer.initial.run es).running = true) := by
  refine ⟨⟨?_, ?_⟩, ?_, ?_⟩
  · simp [SharedTimer.subscribe, h0]
  · simp [SharedTimer.subscribe, h0]
  · by_cases hr : t.running = true
    · simp [SharedTimer.step, SharedTimer.timerCallback, h0, hr]
    · have hrf : t.running = false := by simpa using hr
      simp [SharedTimer.step, hrf]
  · exact sharedTimer_run_inv es _ (by simp [SharedTimer.initial])

/-- Witness for C6: from the initial state the first subscription starts the
timer at 30 Hz; the restart cycle subscribe → unsubscribe → tick →
subscribe leaves the timer running again. -/
theorem shared_timer_lifecycle_witness :
    SharedTimer.initial.numSubscribers = 0
    ∧ SharedTimer.initial.subscribe.running = true
    ∧ SharedTimer.initial.subscribe.timerHz = kRefreshRateHz
    ∧ (SharedTimer.initial.step SharedTimer.Event.tick).running = false
    ∧ (0 < (SharedTimer.initial.run
          [SharedTimer.Event.subscribe, SharedTimer.Event.unsubscribe,
            SharedTimer.Event.tick, SharedTimer.Event.subscribe]).numSubscribers →
        (SharedTimer.initial.run
          [SharedTimer.Event.subscribe, SharedTimer.Event.unsubscribe,
            SharedTimer.Event.tick, SharedTimer.Event.subscribe]).running = true) := by
  have h := shared_timer_lifecycle SharedTimer.initial
    [SharedTimer.Event.subscribe, SharedTimer.Event.unsubscribe,
      SharedTimer.Event.tick, SharedTimer.Event.subscribe] rfl
  exact ⟨rfl, h.1.1, h.1.2, h.2.1, h.2.2⟩

/-- Pushing a sequence appends exactly the accepted measurements, in order,
and leaves the capacity unchanged. -/
lemma pushAll_items (ms : List Measurement) (q : MeasurementQueue) :
    (q.pushAll ms).1.items = q.items ++ (q.pushAll ms).2 := by
  induction ms generalizing q with
  | nil => simp [MeasurementQueue.pushAll]
  | cons m rest ih =>
    by_cases hroom : q.items.length < q.capacity
    · simp only [MeasurementQueue.pushAll, MeasurementQueue.push, if_pos hroom]
      rw [ih]
      simp
    · simp only [MeasurementQueue.pushAll, MeasurementQueue.push, if_neg hroom]
      rw [ih]
      simp

/-- The bounded pop loop with fuel covering the snapshot returns exactly the
queued items, in order. -/
lemma drainLoop_items (l : List Measurement) (cap : ℕ) :
    MeasurementQueue.drainLoop l.length { capacity := cap, items := l } = l := by
  induction l with
  | nil => rfl
  | cons m rest ih =>
    simp only [List.length_cons, MeasurementQueue.drainLoop, MeasurementQueue.tryPop]
    rw [ih]

/-- A full drain returns exactly the queued items, in order. -/
lemma drain_items (q : MeasurementQueue) : q.drain = q.items := by
  have := drainLoop_items q.items q.capacity
  simpa [MeasurementQueue.drain] using this

/-- C4: a push onto a full queue drops only that new measurement — the queue
state (hence every already-accepted measurement) is untouched and the failure
is reported only through the returned boolean — and for every sequence of
pushes into an initially empty queue, draining afterwards pops exactly the
accepted measurements, once each, in order: nothing accepted is lost or
duplicated. -/
theorem queue_drops_only_new_and_drains_accepted (q : MeasurementQueue) (m : Measurement)
    (ms : List Measurement) (cap : ℕ) (hfull : q.capacity ≤ q.items.length) :
    q.push m = (q, false)
    ∧ ((MeasurementQueue.empty cap).pushAll ms).1.drain
        = ((MeasurementQueue.empty cap).pushAll ms).2 := by
  constructor
  · simp [MeasurementQueue.push, not_lt.2 hfull]
  · rw [drain_items, pushAll_items]
    simp [MeasurementQueue.empty]

/-- Witness for C4: a queue of capacity 2 holding two measurements rejects a
third unchanged, and pushing four measurements into an empty two-slot queue
drains exactly the first two. -/
theorem queue_drops_only_new_and_drains_accepted_witness :
    (MeasurementQueue.mk 2 [⟨0, 1⟩, ⟨1, 2⟩]).capacity
        ≤ (MeasurementQueue.mk 2 [⟨0, 1⟩, ⟨1, 2⟩]).items.length
    ∧ (MeasurementQueue.mk 2 [⟨0, 1⟩, ⟨1, 2⟩]).push ⟨0, 3⟩
        = (MeasurementQueue.mk 2 [⟨0, 1⟩, ⟨1, 2⟩], false)
    ∧ ((MeasurementQueue.empty 2).pushAll [⟨0, 1⟩, ⟨1, 2⟩, ⟨0, 3⟩, ⟨1, 4⟩]).1.drain
        = ((MeasurementQueue.empty 2).pushAll [⟨0, 1⟩, ⟨1, 2⟩, ⟨0, 3⟩, ⟨1, 4⟩]).2 := by
  have h := queue_drops_only_new_and_drains_accepted
    (MeasurementQueue.mk 2 [⟨0, 1⟩, ⟨1, 2⟩]) ⟨0, 3⟩
    [⟨0, 1⟩, ⟨1, 2⟩, ⟨0, 3⟩, ⟨1, 4⟩] 2 (by simp)
  exact ⟨by simp, h.1, h.2⟩

/-- The trace of a drain step contains no `finished` event inside the
per-measurement update fan-out. -/
lemma count_finished_in_updates (msgs : List Measurement) (n i : ℕ) :
    (msgs.flatMap fun m => (List.range n).map fun j => MeterEvent.update j m).count
      (MeterEvent.finished i) = 0 := by
  rw [List.count_eq_zero]
  simp

/-- C5: on every clock tick, after the drain completes each currently
subscribed subscriber's `measurementUpdatesFinished` is invoked exactly once
— regardless of the queue contents, including ticks where zero measurements
were dequeued. -/
theorem updates_finished_once_per_tick (q : MeasurementQueue) (subs : List Subscriber)
    (now i : ℕ) (hi : i < subs.length) :
    ((meterTick q subs now).events.count (MeterEvent.finished i)) = 1 := by
  simp only [meterTick, List.count_append]
  rw [count_finished_in_updates]
  rw [List.count_map_of_injective _ MeterEvent.finished
    (fun a b hab => by cases hab; rfl)]
  rw [List.count_eq_one_of_mem (List.nodup_range subs.length) (List.mem_range.2 hi)]

/-- Witness for C5: with an empty queue and two subscribers, the tick still
emits exactly one `finished` call for subscriber 0. -/
theorem updates_finished_once_per_tick_witness :
    0 < [Subscriber.unprepared, Subscriber.unprepared].length
    ∧ ((meterTick (MeasurementQueue.empty 100)
          [Subscriber.unprepared, Subscriber.unprepared] 0).events.count
        (MeterEvent.finished 0)) = 1 :=
  ⟨by simp, updates_finished_once_per_tick (MeasurementQueue.empty 100)
    [Subscriber.unprepared, Subscriber.unprepared] 0 0 (by simp)⟩

/-- Reading after a positioned update: the updated index is mapped through
`f`, every other index is untouched. -/
lemma updateChannel_getElem? (f : ChannelData → ChannelData) (l : List ChannelData) (i j : ℕ) :
    (Subscriber.updateChannel f l i)[j]?
      = if i = j then l[j]?.map f else l[j]? := by
  induction l generalizing i j with
  | nil =>
    cases i <;> cases j <;> simp [Subscriber.updateChannel]
  | cons c cs ih =>
    cases i with
    | zero => cases j <;> simp [Subscriber.updateChannel]
    | succ i' =>
      cases j with
      | zero => simp [Subscriber.updateChannel]
      | succ j' => simpa [Subscriber.updateChannel] using ih i' j'

/-- Delivering a measurement with `peakLevel ≥ kOverloadTriggerLevel` to a
configured channel sets that channel's latch. -/
lemma getOverloaded_update_self (s : Subscriber) (m : Measurement) (now : ℕ)
    (hch : m.channelIndex < s.getNumChannels) (hpk : kOverloadTriggerLevel ≤ m.peakLevel) :
    (s.updateWithMeasurement m now).getOverloaded m.channelIndex = true := by
  obtain ⟨c, hc⟩ : ∃ c, s.channelData[m.channelIndex]? = some c :=
    ⟨_, List.getElem?_eq_getElem hch⟩
  simp [Subscriber.getOverloaded, Subscriber.updateWithMeasurement, updateChannel_getElem?,
    hc, hpk]

/-- No measurement ever clears a set latch. -/
lemma getOverloaded_update_preserve (s : Subscriber) (m : Measurement) (now ch : ℕ)
    (h : s.getOverloaded ch = true) :
    (s.updateWithMeasurement m now).getOverloaded ch = true := by
  simp only [Subscriber.getOverloaded, Subscriber.updateWithMeasurement,
    updateChannel_getElem?] at h ⊢
  by_cases hij : m.channelIndex = ch
  · cases hq : s.channelData[ch]? with
    | none => rw [hq] at h; simp [ChannelData.silent] at h
    | some c =>
      rw [hq] at h
      simp only [Option.getD_some] at h
      simp [hij, hq, h]
  · simp [hij, h]

/-- No sequence of measurements ever clears a set latch. -/
lemma getOverloaded_applyMeasurements_preserve (ms : List (Measurement × ℕ))
    (s : Subscriber) (ch : ℕ) (h : s.getOverloaded ch = true) :
    (s.applyMeasurements ms).getOverloaded ch = true := by
  induction ms generalizing s with
  | nil => exact h
  | cons p ps ih =>
    exact ih _ (getOverloaded_update_preserve _ _ _ _ h)

/-- `resetOverloaded` clears the latch of every channel. -/
lemma getOverloaded_reset (s : Subscriber) (ch : ℕ) :
    s.resetOverloaded.getOverloaded ch = false := by
  simp only [Subscriber.getOverloaded, Subscriber.resetOverloaded, List.getElem?_map]
  cases s.channelData[ch]? <;> simp [ChannelData.silent]

/-- C1: once a measurement with `peakLevel ≥ kOverloadTriggerLevel` (1.0) has
been delivered for a configured channel, `getOverloaded` on that channel
returns `true` after every further sequence of delivered measurements
(lower-peak ones in particular), until `resetOverloaded()` is called — after
which `getOverloaded` returns `false` for every channel. -/
theorem overload_latch_until_reset (s : Subscriber) (m : Measurement) (now : ℕ)
    (later : List (Measurement × ℕ))
    (hch : m.channelIndex < s.getNumChannels)
    (hpk : kOverloadTriggerLevel ≤ m.peakLevel) :
    (((s.updateWithMeasurement m now).applyMeasurements later).getOverloaded m.channelIndex
        = true)
    ∧ ∀ ch : ℕ,
        (((s.updateWithMeasurement m now).applyMeasurements later).resetOverloaded).getOverloaded
          ch = false :=
  ⟨getOverloaded_applyMeasurements_preserve later _ _
      (getOverloaded_update_self s m now hch hpk),
    fun ch => getOverloaded_reset _ ch⟩

/-- Witness for C1: a two-channel subscriber receives a 1.5 measurement on
channel 1; after two later sub-trigger measurements the latch still reads
`true`, and after the reset channel 1 reads `false`. -/
theorem overload_latch_until_reset_witness :
    (1 < (Subscriber.unprepared.prepareToPlay 2).getNumChannels
      ∧ kOverloadTriggerLevel ≤ (3 / 2 : ℚ))
    ∧ ((((Subscriber.unprepared.prepareToPlay 2).updateWithMeasurement ⟨1, 3 / 2⟩ 0).applyMeasurements
          [(⟨1, 1 / 2⟩, 40), (⟨0, 1 / 4⟩, 80)]).getOverloaded 1 = true)
    ∧ (((((Subscriber.unprepared.prepareToPlay 2).updateWithMeasurement ⟨1, 3 / 2⟩ 0).applyMeasurements
          [(⟨1, 1 / 2⟩, 40), (⟨0, 1 / 4⟩, 80)]).resetOverloaded).getOverloaded 1 = false) := by
  have h1 : (Measurement.mk 1 (3 / 2)).channelIndex
      < (Subscriber.unprepared.prepareToPlay 2).getNumChannels := by
    simp [Subscriber.unprepared, Subscriber.prepareToPlay, Subscriber.getNumChannels]
  have h2 : kOverloadTriggerLevel ≤ (Measurement.mk 1 (3 / 2)).peakLevel := by
    norm_num [kOverloadTriggerLevel]
  have h := overload_latch_until_reset (Subscriber.unprepared.prepareToPlay 2)
    ⟨1, 3 / 2⟩ 0 [(⟨1, 1 / 2⟩, 40), (⟨0, 1 / 4⟩, 80)] h1 h2
  exact ⟨⟨h1, h2⟩, h.1, h.2 1⟩

/-- C3: a `LevelPeakValue` fed a single sample of magnitude `v` at time `t0`
(registering because the sample is at least the current value, itself at
least the floor) reports exactly `v` at every time in
`[t0, t0 + holdDurationMs)`; at all times from `t0 + holdDurationMs` on its
reported value declines monotonically and never drops below the configured
floor; and on any state a new incoming sample below the current value changes
nothing — the value only rises on a sample ≥ the current value. -/
theorem peak_hold_single_sample (s : LevelPeakValue) (v : ℚ) (t0 : ℕ)
    (hv : s.currentValue ≤ v) (hfloor : s.floorValue ≤ v) (hdecay : 0 ≤ s.decayPerMs) :
    (∀ t : ℕ, t0 ≤ t → t < t0 + s.holdDurationMs →
      (s.updateWithNewValue v t0).getValue t = v)
    ∧ (∀ t1 t2 : ℕ, t0 + s.holdDurationMs ≤ t1 → t1 ≤ t2 →
      (s.updateWithNewValue v t0).getValue t2 ≤ (s.updateWithNewValue v t0).getValue t1)
    ∧ (∀ t : ℕ, s.floorValue ≤ (s.updateWithNewValue v t0).getValue t)
    ∧ (∀ (s2 : LevelPeakValue) (w : ℚ) (t : ℕ), w < s2.currentValue →
      s2.updateWithNewValue w t = s2) := by
  have hupd : s.updateWithNewValue v t0
      = { s with currentValue := v, lastRiseTime := t0 } := by
    simp [LevelPeakValue.updateWithNewValue, hv]
  refine ⟨?_, ?_, ?_, ?_⟩
  · intro t _ htlt
    rw [hupd]
    simp only [LevelPeakValue.getValue]
    rw [if_pos]
    exact htlt
  · intro t1 t2 h1 h12
    rw [hupd]
    simp only [LevelPeakValue.getValue]
    rw [if_neg (by omega), if_neg (by omega)]
    refine max_le_max le_rfl ?_
    have hc : ((t1 : ℚ)) ≤ (t2 : ℚ) := by exact_mod_cast h12
    have : s.decayPerMs * ((t1 : ℚ) - ((t0 + s.holdDurationMs : ℕ) : ℚ))
        ≤ s.decayPerMs * ((t2 : ℚ) - ((t0 + s.holdDurationMs : ℕ) : ℚ)) := by
      apply mul_le_mul_of_nonneg_left _ hdecay
      linarith
    linarith
  · intro t
    rw [hupd]
    simp only [LevelPeakValue.getValue]
    split
    · exact hfloor
    · exact le_max_left _ _
  · intro s2 w t hw
    simp [LevelPeakValue.updateWithNewValue, not_le.2 hw]

/-- Witness for C3: silence (floor 0, hold 2000 ms, decay 1/100 per ms) fed
1.5 at time 5 reads 1.5 at time 100, declines between times 2105 and 2205,
never reads below the floor, and ignores a later lower sample. -/
theorem peak_hold_single_sample_witness :
    ((LevelPeakValue.silent 2000 (1 / 100)).currentValue ≤ (3 / 2 : ℚ)
      ∧ (LevelPeakValue.silent 2000 (1 / 100)).floorValue ≤ (3 / 2 : ℚ)
      ∧ (0 : ℚ) ≤ (LevelPeakValue.silent 2000 (1 / 100)).decayPerMs)
    ∧ ((LevelPeakValue.silent 2000 (1 / 100)).updateWithNewValue (3 / 2) 5).getValue 100 = 3 / 2
    ∧ ((LevelPeakValue.silent 2000 (1 / 100)).updateWithNewValue (3 / 2) 5).getValue 2205
        ≤ ((LevelPeakValue.silent 2000 (1 / 100)).updateWithNewValue (3 / 2) 5).getValue 2105
    ∧ (LevelPeakValue.silent 2000 (1 / 100)).floorValue
        ≤ ((LevelPeakValue.silent 2000 (1 / 100)).updateWithNewValue (3 / 2) 5).getValue 4000
    ∧ ((LevelPeakValue.silent 2000 (1 / 100)).updateWithNewValue (3 / 2) 5).updateWithNewValue
          1 600
        = (LevelPeakValue.silent 2000 (1 / 100)).updateWithNewValue (3 / 2) 5 := by
  have ha : (LevelPeakValue.silent 2000 (1 / 100)).currentValue ≤ (3 / 2 : ℚ) := by
    norm_num [LevelPeakValue.silent]
  have hb : (LevelPeakValue.silent 2000 (1 / 100)).floorValue ≤ (3 / 2 : ℚ) := by
    norm_num [LevelPeakValue.silent]
  have hc : (0 : ℚ) ≤ (LevelPeakValue.silent 2000 (1 / 100)).decayPerMs := by
    norm_num [LevelPeakValue.silent]
  have h := peak_hold_single_sample (LevelPeakValue.silent 2000 (1 / 100)) (3 / 2) 5 ha hb hc
  refine ⟨⟨ha, hb, hc⟩, h.1 100 (by norm_num) ?_, h.2.1 2105 2205 ?_ (by norm_num),
    h.2.2.1 4000, h.2.2.2 _ 1 600 ?_⟩
  · show 100 < 5 + (LevelPeakValue.silent 2000 (1 / 100)).holdDurationMs
    norm_num [LevelPeakValue.silent]
  · show 5 + (LevelPeakValue.silent 2000 (1 / 100)).holdDurationMs ≤ 2105
    norm_num [LevelPeakValue.silent]
  · show (1 : ℚ) < (((LevelPeakValue.silent 2000 (1 / 100)).updateWithNewValue
      (3 / 2) 5)).currentValue
    norm_num [LevelPeakValue.silent, LevelPeakValue.updateWithNewValue]

/-- One-step unfolding of `interpUp` on a list with two or more knots. -/
lemma interpUp_cons₂ (a b x : ℚ) (rest : List ℚ) :
    Scale.interpUp (a :: b :: rest) x
      = if x ≤ b then (x - a) / (b - a) else 1 + Scale.interpUp (b :: rest) x := rfl

/-- One-step unfolding of `interpDown` on a list with two or more knots. -/
lemma interpDown_cons₂ (a b u : ℚ) (rest : List ℚ) :
    Scale.interpDown (a :: b :: rest) u
      = if u ≤ 1 then a + u * (b - a) else Scale.interpDown (b :: rest) (u - 1) := rfl

/-- On a strictly ascending division list, a level strictly above the first
division and at most the last division has interpolation position in
`(0, length - 1]`. -/
lemma interpUp_pos_le (rest : List ℚ) : ∀ a b x : ℚ,
    List.Chain' (· < ·) (a :: b :: rest) → a < x → x ≤ (a :: b :: rest).getLastD 0 →
    0 < Scale.interpUp (a :: b :: rest) x
      ∧ Scale.interpUp (a :: b :: rest) x ≤ ((a :: b :: rest).length : ℚ) - 1 := by
  induction rest with
  | nil =>
    intro a b x hchain hlo hhi
    have hab : a < b := (List.chain'_cons.1 hchain).1
    have hxb : x ≤ b := by
      simpa [List.getLastD_cons, List.getLastD_nil] using hhi
    rw [interpUp_cons₂, if_pos hxb]
    refine ⟨div_pos (by linarith) (by linarith), ?_⟩
    have h1 : (x - a) / (b - a) ≤ 1 := (div_le_one (by linarith)).2 (by linarith)
    simp only [List.length_cons, List.length_nil]
    push_cast
    linarith
  | cons c rest ih =>
    intro a b x hchain hlo hhi
    have hab : a < b := (List.chain'_cons.1 hchain).1
    by_cases hxb : x ≤ b
    · rw [interpUp_cons₂, if_pos hxb]
      refine ⟨div_pos (by linarith) (by linarith), ?_⟩
      have h1 : (x - a) / (b - a) ≤ 1 := (div_le_one (by linarith)).2 (by linarith)
      have hc : (0 : ℚ) ≤ (rest.length : ℚ) := by positivity
      simp only [List.length_cons]
      push_cast
      linarith
    · push_neg at hxb
      have hchain2 : List.Chain' (· < ·) (b :: c :: rest) := (List.chain'_cons.1 hchain).2
      have hhi2 : x ≤ (b :: c :: rest).getLastD 0 := by
        simpa [List.getLastD_cons] using hhi
      obtain ⟨hpos, hle⟩ := ih b c x hchain2 hxb hhi2
      rw [interpUp_cons₂ a b x (c :: rest), if_neg (not_le.2 hxb)]
      simp only [List.length_cons] at hle ⊢
      push_cast at hle ⊢
      constructor
      · linarith
      · linarith

/-- Round-trip core: on a strictly ascending division list, mapping a level
in `(first, last]` to its interpolation position and back returns the
level. -/
lemma interpDown_interpUp (rest : List ℚ) : ∀ a b x : ℚ,
    List.Chain' (· < ·) (a :: b :: rest) → a < x → x ≤ (a :: b :: rest).getLastD 0 →
    Scale.interpDown (a :: b :: rest) (Scale.interpUp (a :: b :: rest) x) = x := by
  induction rest with
  | nil =>
    intro a b x hchain hlo hhi
    have hab : a < b := (List.chain'_cons.1 hchain).1
    have hne : b - a ≠ 0 := sub_ne_zero.2 (ne_of_gt hab)
    have hxb : x ≤ b := by
      simpa [List.getLastD_cons, List.getLastD_nil] using hhi
    have hu1 : (x - a) / (b - a) ≤ 1 := (div_le_one (by linarith)).2 (by linarith)
    rw [interpUp_cons₂, if_pos hxb, interpDown_cons₂, if_pos hu1,
      div_mul_cancel₀ _ hne]
    ring
  | cons c rest ih =>
    intro a b x hchain hlo hhi
    have hab : a < b := (List.chain'_cons.1 hchain).1
    have hne : b - a ≠ 0 := sub_ne_zero.2 (ne_of_gt hab)
    by_cases hxb : x ≤ b
    · have hu1 : (x - a) / (b - a) ≤ 1 := (div_le_one (by linarith)).2 (by linarith)
      rw [interpUp_cons₂, if_pos hxb, interpDown_cons₂, if_pos hu1,
        div_mul_cancel₀ _ hne]
      ring
    · push_neg at hxb
      have hchain2 : List.Chain' (· < ·) (b :: c :: rest) := (List.chain'_cons.1 hchain).2
      have hhi2 : x ≤ (b :: c :: rest).getLastD 0 := by
        simpa [List.getLastD_cons] using hhi
      have hpos := (interpUp_pos_le rest b c x hchain2 hxb hhi2).1
      rw [interpUp_cons₂ a b x (c :: rest), if_neg (not_le.2 hxb),
        interpDown_cons₂, if_neg (by linarith)]
      have harg : 1 + Scale.interpUp (b :: c :: rest) x - 1
          = Scale.interpUp (b :: c :: rest) x := by ring
      rw [harg]
      exact ih b c x hchain2 hxb hhi2

/-- C2 (amended): for every scale with nonempty, strictly ascending divisions
whose configured minus infinity sits at or below the first division,
`calculateLevelDbForProportion (calculateProportionForLevelDb x) = x` holds
for every `x` in `[divisions.first, divisions.last]`.  (On
`[minusInfinityDb, divisions.first)` the proportion collapses to `0`, so the
round trip cannot hold there; see the counterexample.) -/
theorem scale_roundtrip_on_divisions (s : Scale) (x : ℚ)
    (hchain : List.Chain' (· < ·) s.divisions)
    (hne : s.divisions ≠ [])
    (hmin : s.minusInfinityDb ≤ s.divisions.headI)
    (hlo : s.divisions.headI ≤ x) (hhi : x ≤ s.divisions.getLastD 0) :
    s.calculateLevelDbForProportion (s.calculateProportionForLevelDb x) = x := by
  obtain ⟨d0, rest, hd⟩ : ∃ d0 rest, s.divisions = d0 :: rest := by
    cases hdiv : s.divisions with
    | nil => exact absurd hdiv hne
    | cons d0 rest => exact ⟨d0, rest, rfl⟩
  rw [hd] at hchain hmin hlo hhi
  simp only [List.headI] at hmin hlo
  have hmx : s.minusInfinityDb ≤ x := le_trans hmin hlo
  simp only [Scale.calculateProportionForLevelDb, Scale.calculateLevelDbForProportion, hd]
  rw [max_eq_left hmx, min_eq_left hhi]
  cases rest with
  | nil =>
    have hxd : x = d0 := le_antisymm (by simpa [List.getLastD_cons, List.getLastD_nil] using hhi) hlo
    rw [if_pos (le_of_eq hxd)]
    norm_num [Scale.interpDown, hxd]
  | cons d1 rest =>
    by_cases hx0 : x ≤ d0
    · have hxd : x = d0 := le_antisymm hx0 hlo
      rw [if_pos hx0]
      norm_num [Scale.interpDown, hxd]
    · push_neg at hx0
      rw [if_neg (not_le.2 hx0)]
      obtain ⟨hupos, hule⟩ := interpUp_pos_le rest d0 d1 x hchain hx0 hhi
      have hnpos : (0 : ℚ) < ((d0 :: d1 :: rest).length : ℚ) - 1 := by
        have hc : (0 : ℚ) ≤ (rest.length : ℚ) := by positivity
        simp only [List.length_cons]
        push_cast
        linarith
      have hP0 : 0 ≤ Scale.interpUp (d0 :: d1 :: rest) x / (((d0 :: d1 :: rest).length : ℚ) - 1) :=
        le_of_lt (div_pos hupos hnpos)
      have hP1 : Scale.interpUp (d0 :: d1 :: rest) x / (((d0 :: d1 :: rest).length : ℚ) - 1) ≤ 1 :=
        (div_le_one hnpos).2 hule
      rw [max_eq_left hP0, min_eq_left hP1, div_mul_cancel₀ _ (ne_of_gt hnpos)]
      exact interpDown_interpUp rest d0 d1 x hchain hx0 hhi

/-- Witness for the amended C2: the default-style scale
`Scale(-96, {-60, -40, -20, -10, 0})` round-trips `x = -50`, a level inside
`[divisions.first, divisions.last]`. -/
theorem scale_roundtrip_on_divisions_witness :
    (List.Chain' (· < ·) (Scale.mk (-96) [-60, -40, -20, -10, 0]).divisions
      ∧ (Scale.mk (-96) [-60, -40, -20, -10, 0]).divisions ≠ []
      ∧ (Scale.mk (-96) [-60, -40, -20, -10, 0]).minusInfinityDb
          ≤ (Scale.mk (-96) [-60, -40, -20, -10, 0]).divisions.headI
      ∧ (Scale.mk (-96) [-60, -40, -20, -10, 0]).divisions.headI ≤ (-50 : ℚ)
      ∧ (-50 : ℚ) ≤ (Scale.mk (-96) [-60, -40, -20, -10, 0]).divisions.getLastD 0)
    ∧ (Scale.mk (-96) [-60, -40, -20, -10, 0]).calculateLevelDbForProportion
        ((Scale.mk (-96) [-60, -40, -20, -10, 0]).calculateProportionForLevelDb (-50))
          = -50 := by
  have h1 : List.Chain' (· < ·) (Scale.mk (-96) [-60, -40, -20, -10, 0]).divisions := by
    norm_num [List.chain'_cons]
  have h2 : (Scale.mk (-96) [-60, -40, -20, -10, 0]).divisions ≠ [] := by simp
  have h3 : (Scale.mk (-96) [-60, -40, -20, -10, 0]).minusInfinityDb
      ≤ (Scale.mk (-96) [-60, -40, -20, -10, 0]).divisions.headI := by
    norm_num [List.headI]
  have h4 : (Scale.mk (-96) [-60, -40, -20, -10, 0]).divisions.headI ≤ (-50 : ℚ) := by
    norm_num [List.headI]
  have h5 : (-50 : ℚ) ≤ (Scale.mk (-96) [-60, -40, -20, -10, 0]).divisions.getLastD 0 := by
    norm_num [List.getLastD_cons, List.getLastD_nil]
  exact ⟨⟨h1, h2, h3, h4, h5⟩,
    scale_roundtrip_on_divisions (Scale.mk (-96) [-60, -40, -20, -10, 0]) (-50)
      h1 h2 h3 h4 h5⟩

/-- C2 counterexample: for `Scale(-96, {-60, -40, -20, -10, 0})` the level
`x = -96` lies in the range `[minusInfinityDb, divisions.last]` named by the
claim, yet the round trip returns `-60`, not `-96`: the whole
floor-to-first-division segment maps to proportion `0` (as fixed by the §8
scenario `-20 ↦ 0.5`), so `calculateProportionForLevelDb` is not injective
below the first division and no inverse can recover `x` there. -/
theorem scale_roundtrip_fails_below_first_division :
    ((Scale.mk (-96) [-60, -40, -20, -10, 0]).minusInfinityDb ≤ (-96 : ℚ))
    ∧ ((-96 : ℚ) ≤ (Scale.mk (-96) [-60, -40, -20, -10, 0]).divisions.getLastD 0)
    ∧ (Scale.mk (-96) [-60, -40, -20, -10, 0]).calculateLevelDbForProportion
        ((Scale.mk (-96) [-60, -40, -20, -10, 0]).calculateProportionForLevelDb (-96))
          = -60
    ∧ ((-60 : ℚ) ≠ -96) := by
  refine ⟨by norm_num, by norm_num [List.getLastD_cons, List.getLastD_nil], ?_, by norm_num⟩
  norm_num [Scale.calculateProportionForLevelDb, Scale.calculateLevelDbForProportion,
    Scale.interpUp, Scale.interpDown, List.getLastD_cons, List.getLastD_nil]

end LevelMeterSpec

